import Mathlib

/-!
Verification of the feed-activity extraction subsystem
(`linkedin_api/utils/helpers.py` and `linkedin_api/model.py`).

The Python source is shallowly embedded below.  Raw feed records are
JSON-like trees; every dictionary access that the source wraps in a bare
`try/except` is modelled as an `Option`-valued lookup, where `none`
corresponds to the exception path (key absent, or the value not of the
shape the subsequent operation needs, e.g. a non-string where a string
is operated on).  The three places where the source can actually raise
out of `elements_to_linkedin_activity` — the conditionally-unbound
locals `actor_type` and `url`, and the timestamp decoder's failure on a
string with no embedded activity id — are modelled with `Except`.
-/

namespace LinkedinApi

/-- JSON-like values, the shape of the raw records consumed by
`helpers.py`.  Leaves that the source reads as text are modelled as
`str`; numeric leaves (the highlighted-comment `createdTime`) as `num`. -/
inductive Json where
  | str (s : String)
  | num (n : Int)
  | obj (fields : List (String × Json))
  | arr (elems : List Json)
  | null

/-- First-match association lookup, the model of `d[key]` /`d.get(key)`
on a Python dict (dict keys are unique, so first match is the match). -/
def lookupField (k : String) : List (String × Json) → Option Json
  | [] => none
  | (k2, v) :: fs => if k2 = k then some v else lookupField k fs

/-- Lookup `d[key]`: `none` models the `KeyError`/`TypeError` path (key absent,
or the value is not a mapping). -/
def Json.get (j : Json) (k : String) : Option Json :=
  match j with
  | .obj fs => lookupField k fs
  | _ => none

/-- Indexing `d[i]` on a list: `none` models `IndexError`/`TypeError`. -/
def Json.index (j : Json) (i : Nat) : Option Json :=
  match j with
  | .arr xs => xs.get? i
  | _ => none

/-- Read a string leaf.  A present non-string value is mapped to `none`,
the same recovery path the source's bare `except` takes when it later
operates on the value with a string operation. -/
def Json.asStr : Json → Option String
  | .str s => some s
  | _ => none

/-- Chained dictionary access `d[k1][k2]...`, `none` on the first
failing step (which in the source raises and is caught by the enclosing
bare `except`). -/
def getPath (j : Json) : List String → Option Json
  | [] => some j
  | k :: ks =>
    match j.get k with
    | some v => getPath v ks
    | none => none

/-- Chained access ending in a string leaf. -/
def getPathStr (j : Json) (p : List String) : Option String :=
  (getPath j p).bind Json.asStr

/-- A top-level string field with the source's `except: x = ""` default. -/
def strField (j : Json) (k : String) : String :=
  (getPathStr j [k]).getD ""

/-- Python's substring test `pat in s`, on the underlying characters. -/
def subAux (pat : List Char) : List Char → Bool
  | [] => pat.isEmpty
  | c :: cs => pat.isPrefixOf (c :: cs) || subAux pat cs

/-- Python's `pat in s` for strings. -/
def containsSub (pat s : String) : Bool :=
  subAux pat.data s.data

/-- Decimal value of an ASCII digit. -/
def digitVal (c : Char) : Nat := c.toNat - 48

/-- Python's `int(ds)` on a string of decimal digits. -/
def parseDigits (ds : List Char) : Nat :=
  ds.foldl (fun a c => 10 * a + digitVal c) 0

/-- The characters of the fixed pattern head in
`re.search("(urn:li:activity:\\d+)", ...)`. -/
def activityPat : List Char := "urn:li:activity:".data

/-- The composite of `re.search("(urn:li:activity:\\d+)", s).group()`,
`.split(":")[-1]` and `int(...)` from `get_timestamp_from_entity_urn`:
the numeric id of the leftmost occurrence of `urn:li:activity:` followed
by at least one digit (the regex takes the maximal digit run).  `none`
models the `AttributeError` raised when `re.search` returns `None`. -/
def findActivityNum : List Char → Option Nat
  | [] => none
  | c :: cs =>
    if activityPat.isPrefixOf (c :: cs) then
      let ds := ((c :: cs).drop activityPat.length).takeWhile Char.isDigit
      if ds.isEmpty then findActivityNum cs else some (parseDigits ds)
    else findActivityNum cs

/-- Binary digits of `n`, least significant first, via fuel-indexed
structural recursion (so that concrete instances evaluate in the
kernel).  `binAux n n` equals `Nat.digits 2 n` (proved below). -/
def binAux : Nat → Nat → List Nat
  | _, 0 => []
  | 0, _ + 1 => []
  | fuel + 1, n + 1 => (n + 1) % 2 :: binAux fuel ((n + 1) / 2)

/-- Binary digits of `n`, least significant first. -/
def binDigitsLE (n : Nat) : List Nat := binAux n n

/-- The digit characters of Python's `bin(n)` (after the `0b` marker),
most significant first; `bin(0) = "0b0"` contributes the single digit 0. -/
def bitsBE (n : Nat) : List Nat :=
  if n = 0 then [0] else (binDigitsLE n).reverse

/-- The composite of `bin(int(post_id))`, the slice `[:43]` (the two
marker characters `0b` plus the first 41 binary digits) and
`int(first_41, 2)`: the value of the leading (at most) 41 bits. -/
def decodeMs (n : Nat) : Nat :=
  Nat.ofDigits 2 ((bitsBE n).take 41).reverse

/-- Model of `get_timestamp_from_entity_urn` (helpers.py:240).  The returned UTC
datetime is represented by its seconds-since-epoch value, the exact
quotient `raw_timestamp = int(first_41, 2) / 1000`.  `none` models the
uncaught `AttributeError` when the identifier pattern is absent. -/
def get_timestamp_from_entity_urn (s : String) : Option ℚ :=
  (findActivityNum s.data).map (fun n => (decodeMs n : ℚ) / 1000)

/-- The output record of `elements_to_linkedin_activity`.  Mirrors
`model.LinkedinActivity` (model.py), which has no `comment_timestamp`
field: the extra `comment_timestamp=` keyword passed by the extractor is
silently dropped by pydantic, so the wall-clock default never reaches
the output. -/
structure LinkedinActivity where
  actor_urn : String
  actor_type : String
  actor_name : String
  dash_entity_urn : String
  entity_urn : String
  url : String
  caption : String
  post_urn : String
  is_shared : Bool
  shared_caption : String
  is_reposted : Bool
  is_liked : Bool
  is_commented : Bool
  comment : String
  timestamp : ℚ
  deriving DecidableEq

/-- The two ways one record's processing can raise out of the loop body:
an `UnboundLocalError` on a conditionally-assigned local
(`actor_type` / `url`) at the constructor call, or the identifier
decoder's failure on the (possibly defaulted-empty) `entityUrn`. -/
inductive ExtractErr where
  | unboundLocal (v : String)
  | malformedUrn
  deriving DecidableEq

/-- The loop-carried bindings of the two conditionally-assigned Python
locals: `none` means the variable is still unbound (first iteration and
no assignment yet); a stale value from an earlier iteration persists. -/
structure LoopState where
  actorType : Option String
  url : Option String
  deriving DecidableEq

/-- The four classification flags, reset to `False` at the top of every
loop iteration. -/
structure Flags where
  shared : Bool
  reposted : Bool
  commented : Bool
  liked : Bool
  deriving DecidableEq

/-- The first `try` block (helpers.py:255): reads `d["actor"]["urn"]`
and conditionally rebinds `actor_type` by substring match; on neither
match, and on the exception path, the previous binding (possibly
unbound) survives. -/
def actorTypeBind (prev : Option String) (d : Json) : Option String :=
  match getPathStr d ["actor", "urn"] with
  | some u =>
    if containsSub "company" u then some "company"
    else if containsSub "member" u then some "member"
    else prev
  | none => prev

/-- The value of `actor_urn` after the first `try` block: the read value, or `""`
from the `except` arm. -/
def actorUrnOf (d : Json) : String :=
  (getPathStr d ["actor", "urn"]).getD ""

/-- The scan over `updateMetadata.updateActions.actions` (helpers.py:282):
first action whose `actionType` equals `SHARE_VIA` binds `url` to its
`url` value and breaks; an exception anywhere in the block binds `""`;
if the loop finishes without a match, the previous binding survives. -/
def scanActions : List Json → Option String → Option String
  | [], prev => prev
  | a :: rest, prev =>
    match a.get "actionType" with
    | none => some ""
    | some (.str tv) =>
      if tv = "SHARE_VIA" then
        match (a.get "url").bind Json.asStr with
        | some u => some u
        | none => some ""
      else scanActions rest prev
    | some _ => scanActions rest prev

/-- The `url` binding produced by the share-via `try` block: a failing
lookup (or a non-list `actions`) takes the `except` arm and binds `""`. -/
def urlBind (prev : Option String) (d : Json) : Option String :=
  match getPath d ["updateMetadata", "updateActions", "actions"] with
  | some (.arr actions) => scanActions actions prev
  | _ => some ""

/-- Lookup of `d["resharedUpdate"]["commentary"]["text"]["text"]` (helpers.py:290). -/
def resharedCaption (d : Json) : Option String :=
  getPathStr d ["resharedUpdate", "commentary", "text", "text"]

/-- Lookup of `d["header"]["text"]["text"]` (helpers.py:297). -/
def headerText (d : Json) : Option String :=
  getPathStr d ["header", "text", "text"]

/-- The classification chain (helpers.py:289-306): reshare commentary
present sets `is_shared` and suppresses the header branch; otherwise a
successfully read header text sets exactly one of the other three flags
with `is_liked` as the fallback; otherwise all flags stay `False`. -/
def flagsOf (d : Json) : Flags :=
  match resharedCaption d with
  | some _ => ⟨true, false, false, false⟩
  | none =>
    match headerText d with
    | some t =>
      if containsSub "reposted this" t then ⟨false, true, false, false⟩
      else if containsSub "commented on this" t then ⟨false, false, true, false⟩
      else ⟨false, false, false, true⟩
    | none => ⟨false, false, false, false⟩

/-- The highlighted-comment block (helpers.py:311-318).  `comment` keeps
the extracted text only when the whole block succeeds, including the
numeric `createdTime` read whose failure resets the text to `""`. -/
def highlightedCommentOf (d : Json) : String :=
  match (d.get "highlightedComments").bind (fun j => j.index 0) with
  | none => ""
  | some h0 =>
    match ((h0.get "commentV2").bind (fun j => j.get "text")).bind Json.asStr,
        h0.get "createdTime" with
    | some t, some (.num _) => t
    | _, _ => ""

/-- The `model.LinkedinActivity(...)` construction (helpers.py:330) once
the three fallible arguments (`actor_type`, `url`, `timestamp`) are
known. -/
def activityOf (d : Json) (atv urlv : String) (ts : ℚ) : LinkedinActivity :=
  { actor_urn := actorUrnOf d
    actor_type := atv
    actor_name := (getPathStr d ["actor", "name", "text"]).getD ""
    dash_entity_urn := strField d "dashEntityUrn"
    entity_urn := strField d "entityUrn"
    url := urlv
    caption := (getPathStr d ["commentary", "text", "text"]).getD ""
    post_urn := (getPathStr d ["updateMetadata", "urn"]).getD ""
    is_shared := (flagsOf d).shared
    shared_caption := (resharedCaption d).getD ""
    is_reposted := (flagsOf d).reposted
    is_liked := (flagsOf d).liked
    is_commented := (flagsOf d).commented
    comment := if (flagsOf d).commented then highlightedCommentOf d else ""
    timestamp := ts }

/-- One iteration of the loop in `elements_to_linkedin_activity`.  The
constructor call evaluates its arguments in source order, so an unbound
`actor_type` raises before an unbound `url`, which raises before the
timestamp decoder runs on `entity_urn`. -/
def processRecord (st : LoopState) (d : Json) :
    Except ExtractErr (LinkedinActivity × LoopState) :=
  match actorTypeBind st.actorType d with
  | none => .error (.unboundLocal "actor_type")
  | some atv =>
    match urlBind st.url d with
    | none => .error (.unboundLocal "url")
    | some urlv =>
      match get_timestamp_from_entity_urn (strField d "entityUrn") with
      | none => .error .malformedUrn
      | some ts => .ok (activityOf d atv urlv ts, ⟨some atv, some urlv⟩)

/-- The loop of `elements_to_linkedin_activity`, threading the bindings
of the conditionally-assigned locals; the first raising record aborts
the whole batch. -/
def elemsGo (st : LoopState) : List Json → Except ExtractErr (List LinkedinActivity)
  | [] => .ok []
  | d :: ds =>
    match processRecord st d with
    | .error e => .error e
    | .ok (a, st2) =>
      match elemsGo st2 ds with
      | .error e => .error e
      | .ok rest => .ok (a :: rest)

/-- Model of `elements_to_linkedin_activity` (helpers.py:250): both
locals start unbound. -/
def elements_to_linkedin_activity (data : List Json) :
    Except ExtractErr (List LinkedinActivity) :=
  elemsGo ⟨none, none⟩ data

/-! ### Feed assembler (`get_list_posts_sorted_without_promoted`) -/

/-- A partial post mapping: a dict with string keys and string values. -/
def Post := List (String × String)

instance : DecidableEq Post := by
  unfold Post
  infer_instance

instance : Membership Post (List Post) := by
  unfold Post
  infer_instance

/-- Model of `p.get(key)` / `p[key]` on a post mapping. -/
def pget (p : Post) (key : String) : Option String :=
  match p with
  | [] => none
  | (k, v) :: ps => if k = key then some v else pget ps key

/-- The filter `[d for d in l_posts if "Promoted" not in d.get("old")]`
(helpers.py:231).  A post with no `old` key makes `d.get("old")` return
`None` and the membership test raise `TypeError`, modelled as `none`. -/
def filterOld : List Post → Option (List Post)
  | [] => some []
  | p :: ps =>
    match pget p "old" with
    | none => none
    | some o =>
      if containsSub "Promoted" o then filterOld ps
      else (filterOld ps).map (fun l => p :: l)

/-- The inner loop's search (helpers.py:233-234): first post whose
`url` value contains the urn; `post["url"]` on a post without the key
raises `KeyError`, modelled as `.error`. -/
def findFirstUrn (urn : String) : List Post → Except Unit (Option Post)
  | [] => .ok none
  | p :: ps =>
    match pget p "url" with
    | none => .error ()
    | some u =>
      if containsSub urn u then .ok (some p) else findFirstUrn urn ps

/-- The splice `[d for d in l_posts if urn not in d.get("url")]`
(helpers.py:236); a post with no `url` key raises `TypeError` (`none`). -/
def removeUrn (urn : String) : List Post → Option (List Post)
  | [] => some []
  | p :: ps =>
    match pget p "url" with
    | none => none
    | some u =>
      if containsSub urn u then removeUrn urn ps
      else (removeUrn urn ps).map (fun l => p :: l)

/-- The outer loop of `get_list_posts_sorted_without_promoted`
(helpers.py:232-237). -/
def feedLoop : List String → List Post → Option (List Post)
  | [], _ => some []
  | urn :: urns, posts =>
    match findFirstUrn urn posts with
    | .error _ => none
    | .ok none => feedLoop urns posts
    | .ok (some p) =>
      match removeUrn urn posts with
      | none => none
      | some posts2 => (feedLoop urns posts2).map (fun l => p :: l)

/-- Model of `get_list_posts_sorted_without_promoted` (helpers.py:218). -/
def get_list_posts_sorted_without_promoted (l_urns : List String)
    (l_posts : List Post) : Option (List Post) :=
  match filterOld l_posts with
  | none => none
  | some ps => feedLoop l_urns ps

instance {ε α : Type} [DecidableEq ε] [DecidableEq α] : DecidableEq (Except ε α) :=
  fun x y =>
    match x, y with
    | .error a, .error b =>
      if h : a = b then .isTrue (by rw [h])
      else .isFalse (by intro hc; cases hc; exact h rfl)
    | .ok a, .ok b =>
      if h : a = b then .isTrue (by rw [h])
      else .isFalse (by intro hc; cases hc; exact h rfl)
    | .error _, .ok _ => .isFalse (by intro hc; cases hc)
    | .ok _, .error _ => .isFalse (by intro hc; cases hc)

/-! ### Lemmas about the identifier decoder -/

lemma binAux_eq_digits : ∀ fuel n, n ≤ fuel → binAux fuel n = Nat.digits 2 n := by
  intro fuel
  induction fuel with
  | zero =>
    intro n hn
    have h0 : n = 0 := Nat.le_zero.mp hn
    subst h0
    simp [binAux]
  | succ fuel ih =>
    intro n hn
    match n with
    | 0 => simp [binAux]
    | m + 1 =>
      rw [binAux, Nat.digits_def' (by norm_num : (1:ℕ) < 2) (Nat.succ_pos m)]
      congr 1
      have hdiv : (m + 1) / 2 < m + 1 := Nat.div_lt_self (Nat.succ_pos m) (by norm_num)
      exact ih _ (by omega)

lemma binDigitsLE_eq_digits (n : Nat) : binDigitsLE n = Nat.digits 2 n :=
  binAux_eq_digits n n le_rfl

lemma ofDigits_digits_drop (b n k : Nat) (hb : 1 < b)
    (hk : k ≤ (Nat.digits b n).length) :
    Nat.ofDigits b ((Nat.digits b n).drop k) = n / b ^ k := by
  have hlen : ((Nat.digits b n).take k).length = k := by
    rw [List.length_take]
    omega
  have hlt : Nat.ofDigits b ((Nat.digits b n).take k) < b ^ k := by
    have h1 : Nat.ofDigits b ((Nat.digits b n).take k) <
        b ^ ((Nat.digits b n).take k).length :=
      Nat.ofDigits_lt_base_pow_length hb
        (fun x hx => Nat.digits_lt_base hb (List.mem_of_mem_take hx))
    rwa [hlen] at h1
  have hsplit : n = Nat.ofDigits b ((Nat.digits b n).take k) +
      b ^ k * Nat.ofDigits b ((Nat.digits b n).drop k) := by
    conv_lhs => rw [← Nat.ofDigits_digits b n, ← List.take_append_drop k (Nat.digits b n)]
    rw [Nat.ofDigits_append, hlen]
  conv_rhs => rw [hsplit]
  rw [Nat.add_mul_div_left _ _ (pow_pos (by omega) k), Nat.div_eq_of_lt hlt, zero_add]

lemma decodeMs_of_short (n : Nat) (h : (bitsBE n).length ≤ 41) : decodeMs n = n := by
  unfold decodeMs
  rw [List.take_of_length_le h]
  by_cases h0 : n = 0
  · subst h0
    simp [bitsBE, Nat.ofDigits]
  · rw [bitsBE, if_neg h0, List.reverse_reverse, binDigitsLE_eq_digits,
      Nat.ofDigits_digits]

lemma decodeMs_of_long (n : Nat) (h : 41 ≤ (binDigitsLE n).length) :
    decodeMs n = n / 2 ^ ((binDigitsLE n).length - 41) := by
  have h0 : n ≠ 0 := by
    intro h0
    subst h0
    simp [binDigitsLE, binAux] at h
  unfold decodeMs
  rw [bitsBE, if_neg h0, List.take_reverse, List.reverse_reverse,
    binDigitsLE_eq_digits] at *
  exact ofDigits_digits_drop 2 n _ (by norm_num) (by omega)

/-- C6: a decodable identifier whose numeric id has at least 41 binary
digits is decoded to the value of its leading 41 bits, read as
milliseconds since the Unix epoch and divided by 1000 to give the UTC
timestamp in seconds; being an equation of a function of the input, the
decode is deterministic. -/
theorem c6_leading_41_bits (s : String) (n : Nat)
    (hfind : findActivityNum s.data = some n)
    (hlen : 41 ≤ (binDigitsLE n).length) :
    get_timestamp_from_entity_urn s =
      some (((n / 2 ^ ((binDigitsLE n).length - 41) : ℕ) : ℚ) / 1000) := by
  unfold get_timestamp_from_entity_urn
  rw [hfind, Option.map_some', decodeMs_of_long n hlen]

theorem c6_leading_41_bits_witness :
    41 ≤ (binDigitsLE 7123456789012345678).length ∧
      get_timestamp_from_entity_urn "urn:li:activity:7123456789012345678" =
        some (((7123456789012345678 / 2 ^ ((binDigitsLE 7123456789012345678).length - 41) : ℕ) : ℚ) /
          1000) :=
  ⟨by decide, c6_leading_41_bits "urn:li:activity:7123456789012345678"
    7123456789012345678 (by decide) (by decide)⟩

/-- C7: an identifier whose embedded numeric id has fewer than 41 binary
digits still decodes without failing: the slice simply returns all
available bits, so the result is the id itself in milliseconds — an
epoch-adjacent timestamp, below `2 ^ 40 / 1000` seconds. -/
theorem c7_short_id_succeeds (s : String) (n : Nat)
    (hfind : findActivityNum s.data = some n)
    (hlen : (bitsBE n).length < 41) :
    get_timestamp_from_entity_urn s = some ((n : ℚ) / 1000) ∧
      ((n : ℚ) / 1000) < (2 ^ 40 : ℚ) / 1000 := by
  constructor
  · unfold get_timestamp_from_entity_urn
    rw [hfind, Option.map_some', decodeMs_of_short n (le_of_lt hlen)]
  · rw [div_lt_div_iff_of_pos_right (by norm_num : (0:ℚ) < 1000)]
    have hn : n < 2 ^ 40 := by
      by_cases h0 : n = 0
      · subst h0
        positivity
      · have hlt : n < 2 ^ (Nat.digits 2 n).length :=
          Nat.lt_base_pow_length_digits (by norm_num)
        have hle : (Nat.digits 2 n).length ≤ 40 := by
          rw [bitsBE, if_neg h0, List.length_reverse, binDigitsLE_eq_digits] at hlen
          omega
        calc n < 2 ^ (Nat.digits 2 n).length := hlt
          _ ≤ 2 ^ 40 := Nat.pow_le_pow_right (by norm_num) hle
    exact_mod_cast hn

theorem c7_short_id_succeeds_witness :
    (bitsBE 12345).length < 41 ∧
      get_timestamp_from_entity_urn "urn:li:activity:12345" =
        some ((12345 : ℚ) / 1000) ∧
      ((12345 : ℚ) / 1000) < (2 ^ 40 : ℚ) / 1000 := by
  refine ⟨by decide, ?_⟩
  have h := c7_short_id_succeeds "urn:li:activity:12345" 12345 (by decide) (by decide)
  exact_mod_cast h

/-! ### Lemmas about the activity extractor -/

lemma flagsOf_of_reshared {d : Json} {c : String} (h : resharedCaption d = some c) :
    flagsOf d = ⟨true, false, false, false⟩ := by
  unfold flagsOf
  rw [h]

lemma flagsOf_of_header {d : Json} {t : String} (h1 : resharedCaption d = none)
    (h2 : headerText d = some t) :
    flagsOf d =
      if containsSub "reposted this" t then ⟨false, true, false, false⟩
      else if containsSub "commented on this" t then ⟨false, false, true, false⟩
      else ⟨false, false, false, true⟩ := by
  unfold flagsOf
  rw [h1, h2]

lemma flagsOf_of_neither {d : Json} (h1 : resharedCaption d = none)
    (h2 : headerText d = none) : flagsOf d = ⟨false, false, false, false⟩ := by
  unfold flagsOf
  rw [h1, h2]

lemma flagsOf_shared_of_not_reshared {d : Json} (h : resharedCaption d = none) :
    (flagsOf d).shared = false := by
  unfold flagsOf
  rw [h]
  cases headerText d with
  | none => rfl
  | some t =>
    dsimp only
    split
    · rfl
    · split <;> rfl

lemma processRecord_ok_iff {st : LoopState} {d : Json} {a : LinkedinActivity}
    {st2 : LoopState} :
    processRecord st d = .ok (a, st2) ↔
      ∃ atv urlv ts, actorTypeBind st.actorType d = some atv ∧
        urlBind st.url d = some urlv ∧
        get_timestamp_from_entity_urn (strField d "entityUrn") = some ts ∧
        a = activityOf d atv urlv ts ∧ st2 = ⟨some atv, some urlv⟩ := by
  unfold processRecord
  constructor
  · intro h
    cases hat : actorTypeBind st.actorType d with
    | none =>
      rw [hat] at h
      simp at h
    | some atv =>
      rw [hat] at h
      cases hurl : urlBind st.url d with
      | none =>
        rw [hurl] at h
        simp at h
      | some urlv =>
        rw [hurl] at h
        cases hts : get_timestamp_from_entity_urn (strField d "entityUrn") with
        | none =>
          rw [hts] at h
          simp at h
        | some ts =>
          rw [hts] at h
          simp only [Except.ok.injEq, Prod.mk.injEq] at h
          exact ⟨atv, urlv, ts, rfl, rfl, rfl, h.1.symm, h.2.symm⟩
  · rintro ⟨atv, urlv, ts, hat, hurl, hts, rfl, rfl⟩
    rw [hat, hurl, hts]

/-- C1 (amended): for a record whose actor block binds `actor_type`,
whose share-via scan binds `url` (both always hold when the respective
top-level key is absent only if the binding came from the record or an
earlier iteration — here demanded explicitly), and whose `entityUrn`
value embeds a decodable activity id, extraction succeeds, and each of
the six remaining consumed top-level keys, when absent, yields its
documented empty/false default.  (The unamended claim is refuted by
`c1_missing_key_counterexample`: a missing `actor` key leaves
`actor_type` unbound and extraction raises.) -/
theorem c1_missing_key_defaults (st : LoopState) (d : Json) (atv urlv : String)
    (n : Nat)
    (hat : actorTypeBind st.actorType d = some atv)
    (hurl : urlBind st.url d = some urlv)
    (hfind : findActivityNum (strField d "entityUrn").data = some n) :
    ∃ a st2, processRecord st d = .ok (a, st2) ∧
      (d.get "dashEntityUrn" = none → a.dash_entity_urn = "") ∧
      (d.get "updateMetadata" = none → a.url = "" ∧ a.post_urn = "") ∧
      (d.get "resharedUpdate" = none → a.is_shared = false ∧ a.shared_caption = "") ∧
      (d.get "header" = none →
        a.is_reposted = false ∧ a.is_commented = false ∧ a.is_liked = false) ∧
      (d.get "highlightedComments" = none → a.comment = "") ∧
      (d.get "commentary" = none → a.caption = "") := by
  have hts : get_timestamp_from_entity_urn (strField d "entityUrn") =
      some ((decodeMs n : ℚ) / 1000) := by
    unfold get_timestamp_from_entity_urn
    rw [hfind, Option.map_some']
  refine ⟨activityOf d atv urlv ((decodeMs n : ℚ) / 1000), ⟨some atv, some urlv⟩,
    processRecord_ok_iff.mpr ⟨atv, urlv, _, hat, hurl, hts, rfl, rfl⟩,
    ?_, ?_, ?_, ?_, ?_, ?_⟩
  · intro h
    simp [activityOf, strField, getPathStr, getPath, h]
  · intro h
    have hurl0 : urlBind st.url d = some "" := by
      simp [urlBind, getPath, h]
    rw [hurl] at hurl0
    have hu : urlv = "" := by injection hurl0
    refine ⟨?_, ?_⟩
    · simp [activityOf, hu]
    · simp [activityOf, getPathStr, getPath, h]
  · intro h
    have hre : resharedCaption d = none := by
      simp [resharedCaption, getPathStr, getPath, h]
    refine ⟨?_, ?_⟩
    · simp [activityOf, flagsOf_shared_of_not_reshared hre]
    · simp [activityOf, hre]
  · intro h
    have hh : headerText d = none := by
      simp [headerText, getPathStr, getPath, h]
    cases hre : resharedCaption d with
    | none => simp [activityOf, flagsOf_of_neither hre hh]
    | some c => simp [activityOf, flagsOf_of_reshared hre]
  · intro h
    have hc : highlightedCommentOf d = "" := by
      simp [highlightedCommentOf, h]
    simp [activityOf, hc]
  · intro h
    simp [activityOf, getPathStr, getPath, h]

/-- Input refuting the unamended C1: the `actor` top-level key is
absent (while `entityUrn` decodes fine), so the Python local
`actor_type` is never assigned and the constructor call raises
`UnboundLocalError` instead of returning an Activity. -/
def recNoActor : Json := Json.obj [("entityUrn", Json.str "urn:li:activity:12345")]

theorem c1_missing_key_counterexample :
    elements_to_linkedin_activity [recNoActor] =
      .error (.unboundLocal "actor_type") := by
  rfl

/-- Record used by several witnesses: `actor` binds `actor_type` to
`member`, `updateMetadata` is absent so the share-via scan binds `""`,
`entityUrn` decodes; all six optional keys of C1 are absent. -/
def recBare : Json := Json.obj
  [("actor", Json.obj [("urn", Json.str "urn:li:member:1")]),
   ("entityUrn", Json.str "urn:li:activity:12345")]

theorem c1_missing_key_defaults_witness :
    ∃ a st2, processRecord ⟨none, none⟩ recBare = .ok (a, st2) ∧
      (recBare.get "dashEntityUrn" = none → a.dash_entity_urn = "") ∧
      (recBare.get "updateMetadata" = none → a.url = "" ∧ a.post_urn = "") ∧
      (recBare.get "resharedUpdate" = none →
        a.is_shared = false ∧ a.shared_caption = "") ∧
      (recBare.get "header" = none →
        a.is_reposted = false ∧ a.is_commented = false ∧ a.is_liked = false) ∧
      (recBare.get "highlightedComments" = none → a.comment = "") ∧
      (recBare.get "commentary" = none → a.caption = "") :=
  c1_missing_key_defaults ⟨none, none⟩ recBare "member" "" 12345
    (by decide) (by decide) (by decide)

/-- C2: on a record carrying both a reshared-update commentary text and
a header text containing "reposted this", any Activity the extractor
produces has `is_shared = true` and `is_reposted = false` — the reshare
check wins and the header branch is skipped. -/
theorem c2_share_check_dominates (st : LoopState) (d : Json)
    (a : LinkedinActivity) (st2 : LoopState) (c t : String)
    (hre : resharedCaption d = some c)
    (hht : headerText d = some t)
    (hrt : containsSub "reposted this" t = true)
    (hok : processRecord st d = .ok (a, st2)) :
    a.is_shared = true ∧ a.is_reposted = false := by
  obtain ⟨atv, urlv, ts, _, _, _, rfl, rfl⟩ := processRecord_ok_iff.mp hok
  simp [activityOf, flagsOf_of_reshared hre]

/-- Record with both a reshared commentary and a "reposted this" header. -/
def recSharedAndReposted : Json := Json.obj
  [("actor", Json.obj [("urn", Json.str "urn:li:member:1")]),
   ("entityUrn", Json.str "urn:li:activity:12345"),
   ("resharedUpdate", Json.obj [("commentary",
     Json.obj [("text", Json.obj [("text", Json.str "orig post")])])]),
   ("header", Json.obj [("text", Json.obj [("text", Json.str "Bob reposted this")])])]

theorem c2_share_check_dominates_witness :
    ∃ a st2, processRecord ⟨none, none⟩ recSharedAndReposted = .ok (a, st2) ∧
      a.is_shared = true ∧ a.is_reposted = false := by
  have hIsOk : (processRecord ⟨none, none⟩ recSharedAndReposted).isOk = true := by
    decide
  cases hok : processRecord ⟨none, none⟩ recSharedAndReposted with
  | error e =>
    rw [hok] at hIsOk
    simp [Except.isOk, Except.toBool] at hIsOk
  | ok r =>
    obtain ⟨a, st2⟩ := r
    exact ⟨a, st2, rfl,
      c2_share_check_dominates ⟨none, none⟩ recSharedAndReposted a st2
        "orig post" "Bob reposted this" (by decide) (by decide) (by decide) hok⟩

/-- C3: without reshared commentary, a successfully read header text
sets `is_reposted` when it contains "reposted this", else
`is_commented` when it contains "commented on this", else `is_liked`
(the fallback); an absent header text sets none of the three flags. -/
theorem c3_header_text_classification (st : LoopState) (d : Json)
    (a : LinkedinActivity) (st2 : LoopState)
    (hre : resharedCaption d = none)
    (hok : processRecord st d = .ok (a, st2)) :
    (∀ t, headerText d = some t →
      (a.is_reposted, a.is_commented, a.is_liked) =
        if containsSub "reposted this" t then (true, false, false)
        else if containsSub "commented on this" t then (false, true, false)
        else (false, false, true)) ∧
    (headerText d = none →
      a.is_reposted = false ∧ a.is_commented = false ∧ a.is_liked = false) := by
  obtain ⟨atv, urlv, ts, _, _, _, rfl, rfl⟩ := processRecord_ok_iff.mp hok
  refine ⟨?_, ?_⟩
  · intro t hht
    simp only [activityOf, flagsOf_of_header hre hht]
    split
    · simp
    · split <;> simp
  · intro hht
    simp [activityOf, flagsOf_of_neither hre hht]

/-- Record with an unrecognized header phrase: the fallback branch. -/
def recLikedFallback : Json := Json.obj
  [("actor", Json.obj [("urn", Json.str "urn:li:member:1")]),
   ("entityUrn", Json.str "urn:li:activity:12345"),
   ("header", Json.obj [("text", Json.obj [("text", Json.str "X liked this")])])]

theorem c3_header_text_classification_witness :
    ∃ a st2, processRecord ⟨none, none⟩ recLikedFallback = .ok (a, st2) ∧
      (a.is_reposted, a.is_commented, a.is_liked) = (false, false, true) := by
  have hIsOk : (processRecord ⟨none, none⟩ recLikedFallback).isOk = true := by
    decide
  cases hok : processRecord ⟨none, none⟩ recLikedFallback with
  | error e =>
    rw [hok] at hIsOk
    simp [Except.isOk, Except.toBool] at hIsOk
  | ok r =>
    obtain ⟨a, st2⟩ := r
    have h3 := c3_header_text_classification ⟨none, none⟩ recLikedFallback a st2
      (by decide) hok
    have h4 := h3.1 "X liked this" (by decide)
    rw [if_neg (by decide), if_neg (by decide)] at h4
    exact ⟨a, st2, rfl, h4⟩

/-- The number of classification flags set on an Activity. -/
def flagCount (a : LinkedinActivity) : Nat :=
  (cond a.is_shared 1 0) + (cond a.is_reposted 1 0) +
    (cond a.is_liked 1 0) + (cond a.is_commented 1 0)

/-- C4: every emitted Activity has at most one classification flag set:
exactly one when a reshared commentary or a header text was read, and
none when neither was. -/
theorem c4_flags_exclusive (st : LoopState) (d : Json) (a : LinkedinActivity)
    (st2 : LoopState) (hok : processRecord st d = .ok (a, st2)) :
    flagCount a ≤ 1 ∧
      ((resharedCaption d).isSome = true ∨ (headerText d).isSome = true →
        flagCount a = 1) ∧
      (resharedCaption d = none ∧ headerText d = none → flagCount a = 0) := by
  obtain ⟨atv, urlv, ts, _, _, _, rfl, rfl⟩ := processRecord_ok_iff.mp hok
  have hcount : flagCount (activityOf d atv urlv ts) =
      (cond (flagsOf d).shared 1 0) + (cond (flagsOf d).reposted 1 0) +
        (cond (flagsOf d).liked 1 0) + (cond (flagsOf d).commented 1 0) := by
    simp [flagCount, activityOf]
  cases hre : resharedCaption d with
  | some c =>
    rw [hcount, flagsOf_of_reshared hre]
    refine ⟨by decide, fun _ => by decide, fun hcontra => ?_⟩
    exact absurd hcontra.1 (by simp)
  | none =>
    cases hht : headerText d with
    | some t =>
      rw [hcount, flagsOf_of_header hre hht]
      refine ⟨?_, fun _ => ?_, fun hcontra => ?_⟩
      · split
        · decide
        · split <;> decide
      · split
        · decide
        · split <;> decide
      · exact absurd hcontra.2 (by simp)
    | none =>
      rw [hcount, flagsOf_of_neither hre hht]
      refine ⟨by decide, fun hcontra => ?_, fun _ => by decide⟩
      simp at hcontra

theorem c4_flags_exclusive_witness :
    ∃ a st2, processRecord ⟨none, none⟩ recBare = .ok (a, st2) ∧
      flagCount a = 0 := by
  have hIsOk : (processRecord ⟨none, none⟩ recBare).isOk = true := by
    decide
  cases hok : processRecord ⟨none, none⟩ recBare with
  | error e =>
    rw [hok] at hIsOk
    simp [Except.isOk, Except.toBool] at hIsOk
  | ok r =>
    obtain ⟨a, st2⟩ := r
    have h4 := c4_flags_exclusive ⟨none, none⟩ recBare a st2 hok
    exact ⟨a, st2, rfl, h4.2.2 ⟨by decide, by decide⟩⟩

lemma elemsGo_ok_mem :
    ∀ (data : List Json) (st : LoopState) (res : List LinkedinActivity),
      elemsGo st data = .ok res → ∀ d ∈ data,
        ∃ st1 r, processRecord st1 d = .ok r := by
  intro data
  induction data with
  | nil =>
    intro st res _ d hd
    simp at hd
  | cons d0 ds ih =>
    intro st res h d hd
    rw [elemsGo] at h
    cases hp : processRecord st d0 with
    | error e =>
      rw [hp] at h
      simp at h
    | ok r =>
      obtain ⟨a, st2⟩ := r
      rw [hp] at h
      dsimp only at h
      rcases List.mem_cons.mp hd with rfl | hmem
      · exact ⟨st, (a, st2), hp⟩
      · cases hr : elemsGo st2 ds with
        | error e =>
          rw [hr] at h
          simp at h
        | ok rest => exact ih st2 rest hr d hmem

/-- C5: a string with no embedded `urn:li:activity:<digits>` pattern
(for instance the empty string substituted for an absent `entityUrn`)
makes the decoder fail rather than return a value, and a batch
containing a record whose extracted `entityUrn` is such a string is
never extracted successfully: the failure propagates instead of being
replaced by a default. -/
theorem c5_malformed_identifier_propagates (s : String)
    (hfind : findActivityNum s.data = none) :
    get_timestamp_from_entity_urn s = none ∧
      ∀ data res, (∃ d ∈ data, strField d "entityUrn" = s) →
        elements_to_linkedin_activity data ≠ .ok res := by
  have hts : get_timestamp_from_entity_urn s = none := by
    unfold get_timestamp_from_entity_urn
    rw [hfind]
    rfl
  refine ⟨hts, ?_⟩
  rintro data res ⟨d, hmem, hurn⟩ hok
  obtain ⟨st1, r, hr⟩ := elemsGo_ok_mem data ⟨none, none⟩ res hok d hmem
  obtain ⟨a, st2⟩ := r
  obtain ⟨_, _, ts, _, _, hts2, _, _⟩ := processRecord_ok_iff.mp hr
  rw [hurn, hts] at hts2
  exact Option.noConfusion hts2

theorem c5_malformed_identifier_propagates_witness :
    get_timestamp_from_entity_urn "no embedded id here" = none ∧
      elements_to_linkedin_activity
          [Json.obj [("entityUrn", Json.str "no embedded id here")]] ≠
        .ok [] := by
  have h := c5_malformed_identifier_propagates "no embedded id here" (by decide)
  exact ⟨h.1, h.2 [Json.obj [("entityUrn", Json.str "no embedded id here")]] []
    ⟨Json.obj [("entityUrn", Json.str "no embedded id here")],
      List.mem_singleton_self _, by decide⟩⟩

lemma elemsGo_length_get :
    ∀ (data : List Json) (st : LoopState) (res : List LinkedinActivity),
      elemsGo st data = .ok res →
        res.length = data.length ∧
        ∀ i (h1 : i < data.length) (h2 : i < res.length),
          ∃ st1 st2,
            processRecord st1 (data.get ⟨i, h1⟩) = .ok (res.get ⟨i, h2⟩, st2) := by
  intro data
  induction data with
  | nil =>
    intro st res h
    simp only [elemsGo, Except.ok.injEq] at h
    subst h
    exact ⟨rfl, fun i h1 _ => absurd h1 (by simp)⟩
  | cons d0 ds ih =>
    intro st res h
    rw [elemsGo] at h
    cases hp : processRecord st d0 with
    | error e =>
      rw [hp] at h
      simp at h
    | ok r =>
      obtain ⟨a, st2⟩ := r
      rw [hp] at h
      dsimp only at h
      cases hr : elemsGo st2 ds with
      | error e =>
        rw [hr] at h
        simp at h
      | ok rest =>
        rw [hr] at h
        simp only [Except.ok.injEq] at h
        subst h
        obtain ⟨hlen, hidx⟩ := ih st2 rest hr
        refine ⟨by simp [hlen], ?_⟩
        intro i h1 h2
        match i with
        | 0 => exact ⟨st, st2, hp⟩
        | i + 1 =>
          exact hidx i (by simpa using h1) (by simpa using h2)

/-- C10: a successful extraction returns exactly one Activity per input
record, in input order: the i-th output Activity is the Activity the
loop body produces from the i-th input record. -/
theorem c10_one_activity_per_record (data : List Json)
    (res : List LinkedinActivity)
    (h : elements_to_linkedin_activity data = .ok res) :
    res.length = data.length ∧
      ∀ i (h1 : i < data.length) (h2 : i < res.length),
        ∃ st1 st2,
          processRecord st1 (data.get ⟨i, h1⟩) = .ok (res.get ⟨i, h2⟩, st2) :=
  elemsGo_length_get data ⟨none, none⟩ res h

/-- The Activity `elements_to_linkedin_activity` produces from
`recBare`. -/
def actBare : LinkedinActivity :=
  { actor_urn := "urn:li:member:1"
    actor_type := "member"
    actor_name := ""
    dash_entity_urn := ""
    entity_urn := "urn:li:activity:12345"
    url := ""
    caption := ""
    post_urn := ""
    is_shared := false
    shared_caption := ""
    is_reposted := false
    is_liked := false
    is_commented := false
    comment := ""
    timestamp := ((12345 : ℕ) : ℚ) / 1000 }

theorem c10_one_activity_per_record_witness :
    [actBare].length = [recBare].length ∧
      ∃ st1 st2,
        processRecord st1 ([recBare].get ⟨0, by decide⟩) =
          .ok (([actBare].get ⟨0, by decide⟩), st2) := by
  have h := c10_one_activity_per_record [recBare] [actBare] (by rfl)
  exact ⟨h.1, h.2 0 (by decide) (by decide)⟩

/-! ### Lemmas about the feed assembler -/

lemma filterOld_mem :
    ∀ (posts ps : List Post), filterOld posts = some ps → ∀ q ∈ ps,
      q ∈ posts ∧ ∃ o, pget q "old" = some o ∧ containsSub "Promoted" o = false := by
  intro posts
  induction posts with
  | nil =>
    intro ps h q hq
    simp only [filterOld, Option.some.injEq] at h
    subst h
    simp at hq
  | cons p rest ih =>
    intro ps h q hq
    rw [filterOld] at h
    cases ho : pget p "old" with
    | none =>
      rw [ho] at h
      simp at h
    | some o =>
      rw [ho] at h
      dsimp only at h
      by_cases hpr : containsSub "Promoted" o = true
      · rw [if_pos hpr] at h
        obtain ⟨hmem, ho2⟩ := ih ps h q hq
        exact ⟨List.mem_cons_of_mem p hmem, ho2⟩
      · rw [if_neg hpr] at h
        cases hrest : filterOld rest with
        | none =>
          rw [hrest] at h
          simp at h
        | some ps2 =>
          rw [hrest] at h
          simp only [Option.map_some', Option.some.injEq] at h
          subst h
          rcases List.mem_cons.mp hq with rfl | hmem
          · exact ⟨List.mem_cons_self _ _,
              o, ho, Bool.not_eq_true _ ▸ (eq_false_of_ne_true hpr)⟩
          · obtain ⟨hmem2, ho2⟩ := ih ps2 hrest q hmem
            exact ⟨List.mem_cons_of_mem p hmem2, ho2⟩

lemma filterOld_total :
    ∀ posts : List Post, (∀ p ∈ posts, (pget p "old").isSome = true) →
      ∃ ps, filterOld posts = some ps := by
  intro posts
  induction posts with
  | nil => exact fun _ => ⟨[], rfl⟩
  | cons p rest ih =>
    intro hwf
    obtain ⟨ps, hps⟩ := ih (fun q hq => hwf q (List.mem_cons_of_mem p hq))
    have hp := hwf p (List.mem_cons_self p rest)
    cases ho : pget p "old" with
    | none => rw [ho] at hp; simp at hp
    | some o =>
      rw [filterOld, ho]
      dsimp only
      by_cases hpr : containsSub "Promoted" o = true
      · rw [if_pos hpr]
        exact ⟨ps, hps⟩
      · rw [if_neg hpr, hps]
        exact ⟨p :: ps, rfl⟩

lemma findFirstUrn_total (urn : String) :
    ∀ posts : List Post, (∀ p ∈ posts, (pget p "url").isSome = true) →
      ∃ r, findFirstUrn urn posts = .ok r := by
  intro posts
  induction posts with
  | nil => exact fun _ => ⟨none, rfl⟩
  | cons p rest ih =>
    intro hwf
    have hp := hwf p (List.mem_cons_self p rest)
    cases hu : pget p "url" with
    | none => rw [hu] at hp; simp at hp
    | some u =>
      rw [findFirstUrn, hu]
      dsimp only
      by_cases hc : containsSub urn u = true
      · rw [if_pos hc]
        exact ⟨some p, rfl⟩
      · rw [if_neg hc]
        exact ih (fun q hq => hwf q (List.mem_cons_of_mem p hq))

lemma findFirstUrn_none_of_nomatch (urn : String) :
    ∀ posts : List Post, (∀ p ∈ posts, (pget p "url").isSome = true) →
      (∀ p ∈ posts, ∀ u, pget p "url" = some u → containsSub urn u = false) →
      findFirstUrn urn posts = .ok none := by
  intro posts
  induction posts with
  | nil => exact fun _ _ => rfl
  | cons p rest ih =>
    intro hwf hnom
    have hp := hwf p (List.mem_cons_self p rest)
    cases hu : pget p "url" with
    | none => rw [hu] at hp; simp at hp
    | some u =>
      rw [findFirstUrn, hu]
      dsimp only
      rw [if_neg (by simp [hnom p (List.mem_cons_self p rest) u hu])]
      exact ih (fun q hq => hwf q (List.mem_cons_of_mem p hq))
        (fun q hq => hnom q (List.mem_cons_of_mem p hq))

lemma findFirstUrn_some_mem {urn : String} :
    ∀ {posts : List Post} {p : Post},
      findFirstUrn urn posts = .ok (some p) → p ∈ posts := by
  intro posts
  induction posts with
  | nil =>
    intro p h
    simp [findFirstUrn] at h
  | cons q rest ih =>
    intro p h
    rw [findFirstUrn] at h
    cases hu : pget q "url" with
    | none => rw [hu] at h; simp at h
    | some u =>
      rw [hu] at h
      dsimp only at h
      by_cases hc : containsSub urn u = true
      · rw [if_pos hc] at h
        simp only [Except.ok.injEq, Option.some.injEq] at h
        subst h
        exact List.mem_cons_self _ _
      · rw [if_neg hc] at h
        exact List.mem_cons_of_mem q (ih h)

lemma removeUrn_total (urn : String) :
    ∀ posts : List Post, (∀ p ∈ posts, (pget p "url").isSome = true) →
      ∃ ps, removeUrn urn posts = some ps := by
  intro posts
  induction posts with
  | nil => exact fun _ => ⟨[], rfl⟩
  | cons p rest ih =>
    intro hwf
    obtain ⟨ps, hps⟩ := ih (fun q hq => hwf q (List.mem_cons_of_mem p hq))
    have hp := hwf p (List.mem_cons_self p rest)
    cases hu : pget p "url" with
    | none => rw [hu] at hp; simp at hp
    | some u =>
      rw [removeUrn, hu]
      dsimp only
      by_cases hc : containsSub urn u = true
      · rw [if_pos hc]
        exact ⟨ps, hps⟩
      · rw [if_neg hc, hps]
        exact ⟨p :: ps, rfl⟩

lemma removeUrn_mem {urn : String} :
    ∀ {posts ps : List Post}, removeUrn urn posts = some ps →
      ∀ q ∈ ps, q ∈ posts := by
  intro posts
  induction posts with
  | nil =>
    intro ps h q hq
    simp only [removeUrn, Option.some.injEq] at h
    subst h
    simp at hq
  | cons p rest ih =>
    intro ps h q hq
    rw [removeUrn] at h
    cases hu : pget p "url" with
    | none => rw [hu] at h; simp at h
    | some u =>
      rw [hu] at h
      dsimp only at h
      by_cases hc : containsSub urn u = true
      · rw [if_pos hc] at h
        exact List.mem_cons_of_mem p (ih h q hq)
      · rw [if_neg hc] at h
        cases hrest : removeUrn urn rest with
        | none => rw [hrest] at h; simp at h
        | some ps2 =>
          rw [hrest] at h
          simp only [Option.map_some', Option.some.injEq] at h
          subst h
          rcases List.mem_cons.mp hq with rfl | hmem
          · exact List.mem_cons_self _ _
          · exact List.mem_cons_of_mem p (ih hrest q hmem)

lemma feedLoop_mem :
    ∀ (urns : List String) (posts out : List Post),
      feedLoop urns posts = some out → ∀ q ∈ out, q ∈ posts := by
  intro urns
  induction urns with
  | nil =>
    intro posts out h q hq
    simp only [feedLoop, Option.some.injEq] at h
    subst h
    simp at hq
  | cons urn urns ih =>
    intro posts out h q hq
    rw [feedLoop] at h
    cases hf : findFirstUrn urn posts with
    | error e => rw [hf] at h; simp at h
    | ok r =>
      rw [hf] at h
      cases r with
      | none => exact ih posts out h q hq
      | some p =>
        dsimp only at h
        cases hrm : removeUrn urn posts with
        | none => rw [hrm] at h; simp at h
        | some posts2 =>
          rw [hrm] at h
          dsimp only at h
          cases hfl : feedLoop urns posts2 with
          | none => rw [hfl] at h; simp at h
          | some rest =>
            rw [hfl] at h
            simp only [Option.map_some', Option.some.injEq] at h
            subst h
            rcases List.mem_cons.mp hq with rfl | hmem
            · exact findFirstUrn_some_mem hf
            · exact removeUrn_mem hrm q (ih posts2 rest hfl q hmem)

lemma feedLoop_total :
    ∀ (urns : List String) (posts : List Post),
      (∀ p ∈ posts, (pget p "url").isSome = true) →
      ∃ out, feedLoop urns posts = some out := by
  intro urns
  induction urns with
  | nil => exact fun posts _ => ⟨[], rfl⟩
  | cons urn urns ih =>
    intro posts hwf
    obtain ⟨r, hf⟩ := findFirstUrn_total urn posts hwf
    rw [feedLoop, hf]
    cases r with
    | none => exact ih posts hwf
    | some p =>
      dsimp only
      obtain ⟨posts2, hrm⟩ := removeUrn_total urn posts hwf
      rw [hrm]
      dsimp only
      have hwf2 : ∀ p2 ∈ posts2, (pget p2 "url").isSome = true :=
        fun p2 hp2 => hwf p2 (removeUrn_mem hrm p2 hp2)
      obtain ⟨rest, hfl⟩ := ih posts2 hwf2
      rw [hfl]
      exact ⟨p :: rest, rfl⟩

lemma feedLoop_skip :
    ∀ (urns1 : List String) (urn : String) (urns2 : List String)
      (posts : List Post),
      (∀ p ∈ posts, (pget p "url").isSome = true) →
      (∀ p ∈ posts, ∀ u, pget p "url" = some u → containsSub urn u = false) →
      feedLoop (urns1 ++ urn :: urns2) posts = feedLoop (urns1 ++ urns2) posts := by
  intro urns1
  induction urns1 with
  | nil =>
    intro urn urns2 posts hwf hnom
    rw [List.nil_append, List.nil_append, feedLoop,
      findFirstUrn_none_of_nomatch urn posts hwf hnom]
  | cons u1 urns1 ih =>
    intro urn urns2 posts hwf hnom
    rw [List.cons_append, List.cons_append, feedLoop, feedLoop]
    obtain ⟨r, hf⟩ := findFirstUrn_total u1 posts hwf
    rw [hf]
    cases r with
    | none => exact ih urn urns2 posts hwf hnom
    | some p =>
      dsimp only
      obtain ⟨posts2, hrm⟩ := removeUrn_total u1 posts hwf
      rw [hrm]
      dsimp only
      have hwf2 : ∀ p2 ∈ posts2, (pget p2 "url").isSome = true :=
        fun p2 hp2 => hwf p2 (removeUrn_mem hrm p2 hp2)
      have hnom2 : ∀ p2 ∈ posts2, ∀ u, pget p2 "url" = some u →
          containsSub urn u = false :=
        fun p2 hp2 => hnom p2 (removeUrn_mem hrm p2 hp2)
      rw [ih urn urns2 posts2 hwf2 hnom2]

/-- C8: no partial post mapping whose relative-age field contains the
marker "Promoted" ever appears in the output of the feed assembler,
whatever the ordering list. -/
theorem c8_promoted_never_in_output (urns : List String)
    (posts out : List Post)
    (h : get_list_posts_sorted_without_promoted urns posts = some out) :
    ∀ p ∈ out, ∃ o, pget p "old" = some o ∧ containsSub "Promoted" o = false := by
  intro p hp
  unfold get_list_posts_sorted_without_promoted at h
  cases hfo : filterOld posts with
  | none => rw [hfo] at h; simp at h
  | some ps =>
    rw [hfo] at h
    exact (filterOld_mem posts ps hfo p (feedLoop_mem urns ps out h p hp)).2

/-- A promoted partial mapping and an ordinary one. -/
def postPromoted : Post := [("old", "Promoted"), ("url", "base/feed/update/A")]

/-- The ordinary (non-promoted) mapping used by the feed witnesses. -/
def postPlain : Post := [("old", "2 mo"), ("url", "base/feed/update/B")]

theorem c8_promoted_never_in_output_witness :
    ∃ o, pget postPlain "old" = some o ∧ containsSub "Promoted" o = false :=
  c8_promoted_never_in_output ["A", "B"] [postPromoted, postPlain] [postPlain]
    (by rfl) postPlain (List.mem_singleton_self _)

/-- C9: a urn in the ordering list that matches no mapping's URL is
silently skipped — the assembler returns the same output as without
that urn, and (on url- and old-bearing mappings) it returns an output
rather than crashing. -/
theorem c9_unmatched_urn_skipped (urns1 : List String) (urn : String)
    (urns2 : List String) (posts : List Post)
    (hold : ∀ p ∈ posts, (pget p "old").isSome = true)
    (hurl : ∀ p ∈ posts, (pget p "url").isSome = true)
    (hnom : ∀ p ∈ posts, ∀ u, pget p "url" = some u →
      containsSub urn u = false) :
    get_list_posts_sorted_without_promoted (urns1 ++ urn :: urns2) posts =
      get_list_posts_sorted_without_promoted (urns1 ++ urns2) posts ∧
      ∃ out, get_list_posts_sorted_without_promoted (urns1 ++ urn :: urns2) posts =
        some out := by
  obtain ⟨ps, hps⟩ := filterOld_total posts hold
  have hsub : ∀ q ∈ ps, q ∈ posts :=
    fun q hq => (filterOld_mem posts ps hps q hq).1
  have hwf : ∀ p ∈ ps, (pget p "url").isSome = true :=
    fun p hp => hurl p (hsub p hp)
  have hnom2 : ∀ p ∈ ps, ∀ u, pget p "url" = some u →
      containsSub urn u = false :=
    fun p hp => hnom p (hsub p hp)
  unfold get_list_posts_sorted_without_promoted
  rw [hps]
  dsimp only
  exact ⟨feedLoop_skip urns1 urn urns2 ps hwf hnom2,
    feedLoop_skip urns1 urn urns2 ps hwf hnom2 ▸ feedLoop_total (urns1 ++ urns2) ps hwf⟩

theorem c9_unmatched_urn_skipped_witness :
    get_list_posts_sorted_without_promoted ["A", "NOPE"] [postPlain, postPromoted] =
      get_list_posts_sorted_without_promoted ["A"] [postPlain, postPromoted] ∧
      ∃ out, get_list_posts_sorted_without_promoted ["A", "NOPE"]
        [postPlain, postPromoted] = some out := by
  have h := c9_unmatched_urn_skipped ["A"] "NOPE" [] [postPlain, postPromoted]
    (by decide) (by decide) (by decide)
  simpa using h

end LinkedinApi
